import Mathlib

/-!
Shallow embedding of the two scripts of this repository:

* `scripts/validate_openclaw_env.py` — parses a `.env` file into a key/value
  mapping plus duplicate and malformed diagnostics, detects placeholder
  values, and reports PASS/FAIL over four diagnostic categories.
* `scripts/plan_openclaw_rollout.py` — parses a comma-separated channel list
  and renders a provider-aware rollout checklist document.

Text is embedded as `List Char` (`Str`).  Python `dict` is embedded as an
insertion-ordered association list whose insert updates in place, matching
CPython semantics.  Fallible dictionary subscripts are embedded as `Option`.
-/

abbrev Str := List Char

/-- Whitespace stripped by Python `str.strip()` (ASCII subset). -/
def isPySpace (c : Char) : Bool :=
  c == ' ' || c == '\t' || c == '\n' || c == '\r' || c == '\x0b' || c == '\x0c'

/-- Embedding of Python `str.strip()`: drop leading and trailing whitespace. -/
def pyStrip (l : Str) : Str :=
  ((l.dropWhile isPySpace).reverse.dropWhile isPySpace).reverse

/-- Embedding of Python `str.lower()` (ASCII case folding). -/
def pyLower (l : Str) : Str :=
  l.map Char.toLower

/-- Helper for `splitlines`: accumulates the current line (reversed). -/
def splitlinesGo (acc : Str) : Str → List Str
  | [] => if acc.isEmpty then [] else [acc.reverse]
  | '\r' :: '\n' :: rest => acc.reverse :: splitlinesGo [] rest
  | '\n' :: rest => acc.reverse :: splitlinesGo [] rest
  | '\r' :: rest => acc.reverse :: splitlinesGo [] rest
  | c :: rest => splitlinesGo (c :: acc) rest

/-- Embedding of Python `str.splitlines()` restricted to the common
terminators `\n`, `\r`, `\r\n`; a trailing terminator yields no extra
empty line, and empty input yields no lines. -/
def splitlines (l : Str) : List Str :=
  splitlinesGo [] l

/-- Helper for `splitComma`, accumulating the current segment (reversed). -/
def splitCommaGo (acc : Str) : Str → List Str
  | [] => [acc.reverse]
  | ',' :: rest => acc.reverse :: splitCommaGo [] rest
  | c :: rest => splitCommaGo (c :: acc) rest

/-- Embedding of Python `str.split(",")`; the empty string yields `[[]]`. -/
def splitComma (l : Str) : List Str :=
  splitCommaGo [] l

/-- Embedding of Python `sep.join(parts)`. -/
def joinSep (sep : Str) : List Str → Str
  | [] => []
  | [x] => x
  | x :: xs => x ++ sep ++ joinSep sep xs

/-- Python `dict` lookup (`d[k]` / `k in d`) on an insertion-ordered
association list: first (unique) matching key. -/
def dictLookup (k : Str) : List (Str × Str) → Option Str
  | [] => none
  | kv :: rest => if kv.1 = k then some kv.2 else dictLookup k rest

/-- Python `dict` assignment `d[k] = v`: update in place if the key exists,
else append at the end, preserving insertion order. -/
def dictInsert (k v : Str) : List (Str × Str) → List (Str × Str)
  | [] => [(k, v)]
  | kv :: rest => if kv.1 = k then (k, v) :: rest else kv :: dictInsert k v rest

/-- Embedding of Python `pattern in s` (substring containment). -/
def strContains : Str → Str → Bool
  | [], pat => pat.isEmpty
  | c :: t, pat => pat.isPrefixOf (c :: t) || strContains t pat

/-!  Definitions from `validate_openclaw_env.py`.  -/

/-- `PLACEHOLDER_PATTERNS` from `validate_openclaw_env.py` line 11. -/
def PLACEHOLDER_PATTERNS : List Str :=
  [("changeme").toList, ("todo").toList, ("your-key").toList,
   ("your_token").toList, ("example").toList, ("replace-me").toList,
   ("placeholder").toList]

/-- `KEY_RE` from line 21: full match of `[A-Za-z_][A-Za-z0-9_]*`. -/
def keyMatch : Str → Bool
  | [] => false
  | c :: cs => (c.isAlpha || c == '_') && cs.all (fun d => d.isAlphanum || d == '_')

/-- Result triple accumulated by `parse_env`. -/
structure ParseState where
  values : List (Str × Str)
  duplicates : List Str
  malformed : List (Nat × Str)
deriving DecidableEq

/-- Body of the `for` loop of `parse_env` (lines 29-49), processing one
`(index, raw line)` pair. -/
def lineStep (st : ParseState) (entry : Nat × Str) : ParseState :=
  match pyStrip entry.2 with
  | [] => st
  | c :: cs =>
    if c = '#' then st
    else if '=' ∈ c :: cs then
      let key := pyStrip ((c :: cs).takeWhile (fun x => x != '='))
      let value := pyStrip (((c :: cs).dropWhile (fun x => x != '=')).drop 1)
      if keyMatch key then
        if (dictLookup key st.values).isSome then
          { values := dictInsert key value st.values,
            duplicates := st.duplicates ++ [key],
            malformed := st.malformed }
        else
          { values := dictInsert key value st.values,
            duplicates := st.duplicates,
            malformed := st.malformed }
      else
        { st with malformed := st.malformed ++ [(entry.1, entry.2)] }
    else
      { st with malformed := st.malformed ++ [(entry.1, entry.2)] }

/-- `parse_env` (lines 24-51) applied to the text of the env file:
fold `lineStep` over the 1-based enumeration of the lines. -/
def parse_env (content : Str) : ParseState :=
  (List.enumFrom 1 (splitlines content)).foldl lineStep ⟨[], [], []⟩

/-- `is_placeholder` (lines 54-56). -/
def is_placeholder (value : Str) : Bool :=
  PLACEHOLDER_PATTERNS.any (fun pattern => strContains (pyLower value) pattern)

/-- Missing-required-keys computation of `main` (line 77). -/
def missingKeys (values : List (Str × Str)) (req : List Str) : List Str :=
  req.filter (fun key =>
    match dictLookup key values with
    | none => true
    | some v => v.isEmpty)

/-- Placeholder-flagged-keys computation of `main` (line 78). -/
def placeholderKeys (values : List (Str × Str)) : List Str :=
  (values.filter (fun kv => !kv.2.isEmpty && is_placeholder kv.2)).map Prod.fst

/-- Python string comparison: lexicographic on code points. -/
def strLe : Str → Str → Bool
  | [], _ => true
  | _ :: _, [] => false
  | a :: as, b :: bs => if a = b then strLe as bs else decide (a < b)

/-- `sorted(set(duplicates))` from `main` line 89. -/
def sortedDedup (l : List Str) : List Str :=
  (l.dedup).mergeSort strLe

/-- Literal printed by `main` line 108. -/
def okMsg : Str := ("\n[OK] Env validation passed.").toList

/-- Literal printed by `main` line 105. -/
def failMsg : Str := ("\n[FAIL] Env validation failed.").toList

/-- Header printed by `main` line 83. -/
def malformedHeader : Str := ("\nMalformed lines:").toList

/-- Header printed by `main` line 88. -/
def duplicatesHeader : Str := ("\nDuplicate keys:").toList

/-- Header printed by `main` line 93. -/
def missingHeader : Str := ("\nMissing required keys:").toList

/-- Header printed by `main` line 98. -/
def placeholdersHeader : Str := ("\nPotential placeholder values detected:").toList

/-- Item line printed for duplicates, missing keys and placeholders. -/
def itemLine (k : Str) : Str := ("  - ").toList ++ k

/-- Item line printed for a malformed line (line 85). -/
def malformedItemLine (p : Nat × Str) : Str :=
  ("  - line ").toList ++ Nat.toDigits 10 p.1 ++ (": ").toList ++ p.2

/-- First line printed by `main` (line 80). -/
def parsedCountLine (n : Nat) : Str :=
  ("Parsed keys: ").toList ++ Nat.toDigits 10 n

/-- The diagnostic lines printed by `main` (lines 80-100): the parsed-keys
count, then one block per non-empty category, in the fixed order malformed,
duplicates, missing, placeholders. -/
def reportLines (n : Nat) (mal : List (Nat × Str))
    (dups missing placeholders : List Str) : List Str :=
  [parsedCountLine n]
  ++ (if mal.isEmpty then [] else malformedHeader :: mal.map malformedItemLine)
  ++ (if dups.isEmpty then [] else
      duplicatesHeader :: (sortedDedup dups).map itemLine)
  ++ (if missing.isEmpty then [] else missingHeader :: missing.map itemLine)
  ++ (if placeholders.isEmpty then [] else
      placeholdersHeader :: placeholders.map itemLine)

/-- Pure core of `main` (lines 75-109) after the env file has been read:
the sequence of printed lines and the process exit code. -/
def validateReport (content : Str) (req : List Str) : List Str × Nat :=
  let st := parse_env content
  let missing := missingKeys st.values req
  let placeholders := placeholderKeys st.values
  let out := reportLines st.values.length st.malformed st.duplicates
    missing placeholders
  if !st.malformed.isEmpty || !st.duplicates.isEmpty || !missing.isEmpty
      || !placeholders.isEmpty then
    (out ++ [failMsg], 1)
  else
    (out ++ [okMsg], 0)

/-- The printed lines and exit code as a function of the four diagnostic
categories; `validateReport` instantiates this at the parsed results. -/
def reportPair (n : Nat) (mal : List (Nat × Str))
    (dups missing placeholders : List Str) : List Str × Nat :=
  if !mal.isEmpty || !dups.isEmpty || !missing.isEmpty
      || !placeholders.isEmpty then
    (reportLines n mal dups missing placeholders ++ [failMsg], 1)
  else
    (reportLines n mal dups missing placeholders ++ [okMsg], 0)

/-!  Definitions from `plan_openclaw_rollout.py`.  -/

/-- `PROVIDER_LINKS` (lines 10-16). -/
def PROVIDER_LINKS : List (Str × Str) :=
  [(("fly").toList, ("https://docs.openclaw.ai/install/fly").toList),
   (("render").toList, ("https://docs.openclaw.ai/install/render").toList),
   (("railway").toList, ("https://docs.openclaw.ai/install/railway").toList),
   (("hetzner").toList, ("https://docs.openclaw.ai/install/hetzner").toList),
   (("gcp").toList, ("https://docs.openclaw.ai/install/gcp").toList)]

/-- `CHANNEL_LINKS` (lines 18-22). -/
def CHANNEL_LINKS : List (Str × Str) :=
  [(("telegram").toList, ("https://docs.openclaw.ai/channels/telegram").toList),
   (("discord").toList, ("https://docs.openclaw.ai/channels/discord").toList),
   (("slack").toList, ("https://docs.openclaw.ai/channels/slack").toList)]

/-- The list comprehension of `parse_channels` line 26: split on commas,
keep segments with non-empty strip, normalize each to trimmed lower case. -/
def normalizeChannels (raw : Str) : List Str :=
  ((splitComma raw).filter (fun c => !(pyStrip c).isEmpty)).map
    (fun c => pyLower (pyStrip c))

/-- The `invalid` list of `parse_channels` line 27. -/
def invalidChannels (raw : Str) : List Str :=
  (normalizeChannels raw).filter (fun c => (dictLookup c CHANNEL_LINKS).isNone)

/-- `parse_channels` (lines 25-30); raising `ValueError` is embedded as
`Except.error` carrying the message text. -/
def parse_channels (raw : Str) : Except Str (List Str) :=
  let channels := normalizeChannels raw
  let invalid := channels.filter (fun c => (dictLookup c CHANNEL_LINKS).isNone)
  if invalid.isEmpty then Except.ok channels
  else Except.error (("Unsupported channels: ").toList ++ joinSep ((", ").toList) invalid)

/-- Channel configure line appended in `render` line 60. -/
def configureLine (channel url : Str) : Str :=
  ("- [ ] Configure ").toList ++ channel ++ (": ").toList ++ url

/-- Channel smoke-test line appended in `render` line 61. -/
def smokeLine (channel : Str) : Str :=
  ("- [ ] Send ").toList ++ channel ++ (" smoke-test message and verify response path.").toList

/-- Line appended in `render` line 63 when no channels are selected. -/
def noChannelsLine : Str :=
  ("- [ ] No channels selected for this rollout.").toList

/-- The `for` loop of `render` lines 59-61; a channel absent from
`CHANNEL_LINKS` would raise `KeyError`, embedded as `none`. -/
def channelLoop : List Str → Option (List Str)
  | [] => some []
  | c :: rest =>
    match dictLookup c CHANNEL_LINKS, channelLoop rest with
    | some url, some tail => some (configureLine c url :: smokeLine c :: tail)
    | _, _ => none

/-- The `if channels` block of `render` lines 58-63. -/
def channelBlock (channels : List Str) : Option (List Str) :=
  if channels.isEmpty then some [noChannelsLine] else channelLoop channels

/-- Header line `## 3. Channels` (line 55). -/
def channelsHeader : Str := ("## 3. Channels").toList

/-- The document lines of `render` built before the channels loop
(lines 37-55), except the trailing `## 3. Channels` header which is kept
separate as `channelsHeader`.  `now` is the timestamp parameter. -/
def preBody (now provider environment provider_url : Str) : List Str :=
  [("# OpenClaw Rollout Plan").toList,
   [],
   ("- Generated: ").toList ++ now,
   ("- Provider: ").toList ++ provider,
   ("- Environment: ").toList ++ environment,
   [],
   ("## 1. Preflight").toList,
   ("- [ ] Confirm deployment scope and rollback owner.").toList,
   ("- [ ] Validate `.env` with `scripts/validate_openclaw_env.py`.").toList,
   ("- [ ] Confirm secure secret storage in provider dashboard/CLI.").toList,
   [],
   ("## 2. Deployment").toList,
   ("- [ ] Follow official provider guide: ").toList ++ provider_url,
   ("- [ ] Configure persistent state storage before first traffic.").toList,
   ("- [ ] Deploy and capture app URL + health checks.").toList,
   ("- [ ] Verify logs show healthy startup without secret leakage.").toList,
   []]

/-- The document lines appended by `lines.extend` (lines 65-81). -/
def postLines : List Str :=
  [[],
   ("## 4. Agent + Memory").toList,
   ("- [ ] Confirm agent behavior constraints align with intended use.").toList,
   ("- [ ] Confirm memory persistence and restart behavior.").toList,
   [],
   ("## 5. Security").toList,
   ("- [ ] Apply references/openclaw-security-checklist.md and mark pass/fail.").toList,
   ("- [ ] Verify gateway protection and token rotation plan.").toList,
   [],
   ("## 6. Handover").toList,
   ("- [ ] Record deployment details, risks, and follow-ups.").toList,
   ("- [ ] Share operator runbook and escalation path.").toList,
   []]

/-- The `lines` list of `render` (lines 33-81) as a function of the
timestamp; the provider lookup of line 35 and the per-channel lookups are
fallible (`KeyError`), hence `Option`. -/
def renderLines (provider : Str) (channels : List Str) (environment now : Str) :
    Option (List Str) :=
  match dictLookup provider PROVIDER_LINKS with
  | none => none
  | some provider_url =>
    match channelBlock channels with
    | none => none
    | some block =>
      some (preBody now provider environment provider_url
        ++ [channelsHeader] ++ block ++ postLines)

/-- `render` (lines 33-83): the joined document text. -/
def render (provider : Str) (channels : List Str) (environment now : Str) :
    Option Str :=
  (renderLines provider channels environment now).map
    (fun ls => joinSep (("\n").toList) ls)

/-- The Channels section of a rendered document: the lines strictly between
the `## 3. Channels` header and the next blank line. -/
def channelsSection (doc : List Str) : List Str :=
  ((doc.dropWhile (fun l => l != channelsHeader)).drop 1).takeWhile
    (fun l => !l.isEmpty)

/-!  Spec-side characterizations used to state the claims.  -/

/-- Classification of one raw line by `parse_env`: `some (key, value)` when
the line is well formed (not blank, not a comment, has `=`, grammar-valid
key), `none` otherwise; mirrors the branch structure of lines 29-49. -/
def lineKeyValue (raw : Str) : Option (Str × Str) :=
  match pyStrip raw with
  | [] => none
  | c :: cs =>
    if c = '#' then none
    else if '=' ∈ c :: cs then
      let key := pyStrip ((c :: cs).takeWhile (fun x => x != '='))
      let value := pyStrip (((c :: cs).dropWhile (fun x => x != '=')).drop 1)
      if keyMatch key then some (key, value) else none
    else none

/-- Spec-side malformedness predicate: the trimmed line is neither blank nor
a comment, and either contains no `=` or the trimmed substring before the
first `=` fails the key grammar. -/
def specMalformed (raw : Str) : Bool :=
  match pyStrip raw with
  | [] => false
  | c :: cs =>
    if c = '#' then false
    else if '=' ∈ c :: cs then
      !keyMatch (pyStrip ((c :: cs).takeWhile (fun x => x != '=')))
    else true

/-- Values of the well-formed lines of `content` whose key is `k`, in file
order. -/
def keyOccurrences (content : Str) (k : Str) : List Str :=
  (splitlines content).filterMap (fun raw =>
    match lineKeyValue raw with
    | some kv => if kv.1 = k then some kv.2 else none
    | none => none)

/-!  Lemmas about the dictionary embedding.  -/

theorem dictLookup_dictInsert_self (k v : Str) (d : List (Str × Str)) :
    dictLookup k (dictInsert k v d) = some v := by
  induction d with
  | nil => simp [dictInsert, dictLookup]
  | cons kv rest ih =>
    by_cases h : kv.1 = k
    · simp [dictInsert, dictLookup, h]
    · simp [dictInsert, dictLookup, h, ih]

theorem dictLookup_dictInsert_ne (k k' v : Str) (d : List (Str × Str))
    (h : k' ≠ k) : dictLookup k (dictInsert k' v d) = dictLookup k d := by
  induction d with
  | nil => simp [dictInsert, dictLookup, h]
  | cons kv rest ih =>
    by_cases hk : kv.1 = k'
    · simp [dictInsert, dictLookup, hk, h]
    · by_cases hk2 : kv.1 = k
      · have hkk : ¬k = k' := fun e => hk (hk2.trans e)
        simp [dictInsert, dictLookup, hk, hk2, hkk]
      · simp [dictInsert, dictLookup, hk, hk2, ih]

/-!  Characterization of one `parse_env` loop iteration.  -/

theorem specMalformed_of_lineKeyValue (raw : Str) (kv : Str × Str)
    (h : lineKeyValue raw = some kv) : specMalformed raw = false := by
  unfold lineKeyValue at h
  unfold specMalformed
  cases hs : pyStrip raw with
  | nil => rfl
  | cons c cs =>
    rw [hs] at h
    by_cases hc : c = '#'
    · simp [hc] at h
    · by_cases he : '=' ∈ c :: cs
      · by_cases hk : keyMatch (pyStrip ((c :: cs).takeWhile (fun x => x != '=')))
        · simp [hc, he, hk]
        · simp [hc, he, hk] at h
      · simp [hc, he] at h

theorem lineStep_char (st : ParseState) (p : Nat × Str) :
    lineStep st p =
      match lineKeyValue p.2 with
      | some kv =>
        { values := dictInsert kv.1 kv.2 st.values,
          duplicates := st.duplicates ++
            (if (dictLookup kv.1 st.values).isSome then [kv.1] else []),
          malformed := st.malformed }
      | none =>
        { st with malformed := st.malformed ++
            (if specMalformed p.2 then [p] else []) } := by
  obtain ⟨idx, raw⟩ := p
  unfold lineStep lineKeyValue specMalformed
  cases hs : pyStrip raw with
  | nil => simp
  | cons c cs =>
    by_cases hc : c = '#'
    · simp [hc]
    · by_cases he : '=' ∈ c :: cs
      · by_cases hk : keyMatch (pyStrip ((c :: cs).takeWhile (fun x => x != '=')))
        · by_cases hd : (dictLookup (pyStrip ((c :: cs).takeWhile (fun x => x != '='))) st.values).isSome
          · simp [hc, he, hk, hd]
          · simp [hc, he, hk, hd]
        · simp [hc, he, hk]
      · simp [hc, he]

/-!  Invariants of the `parse_env` fold.  -/

/-- Values of the well-formed pairs among `ps` whose key is `k`. -/
def occValues (k : Str) (ps : List (Nat × Str)) : List Str :=
  ps.filterMap (fun p =>
    match lineKeyValue p.2 with
    | some kv => if kv.1 = k then some kv.2 else none
    | none => none)

theorem occValues_enumFrom (k : Str) (n : Nat) (lines : List Str) :
    occValues k (List.enumFrom n lines) = lines.filterMap (fun raw =>
      match lineKeyValue raw with
      | some kv => if kv.1 = k then some kv.2 else none
      | none => none) := by
  induction lines generalizing n with
  | nil => rfl
  | cons l rest ih =>
    simp only [List.enumFrom, occValues, List.filterMap_cons] at ih ⊢
    rw [ih]

theorem foldl_malformed (ps : List (Nat × Str)) (st : ParseState) :
    (ps.foldl lineStep st).malformed =
      st.malformed ++ ps.filter (fun p => specMalformed p.2) := by
  induction ps generalizing st with
  | nil => simp
  | cons p rest ih =>
    rw [List.foldl_cons, ih, lineStep_char st p]
    cases h : lineKeyValue p.2 with
    | some kv =>
      rw [specMalformed_of_lineKeyValue p.2 kv h] at *
      simp [List.filter_cons, specMalformed_of_lineKeyValue p.2 kv h]
    | none =>
      cases hm : specMalformed p.2 with
      | true => simp [List.filter_cons, hm]
      | false => simp [List.filter_cons, hm]

theorem getLast?_cons_or {α : Type} (a : α) (l : List α) (x : Option α) :
    ((a :: l).getLast?).or x = (l.getLast?).or (some a) := by
  rw [show (a :: l) = [a] ++ l from rfl, List.getLast?_append]
  cases hl : l.getLast? <;> simp

theorem foldl_lookup (ps : List (Nat × Str)) (st : ParseState) (k : Str) :
    dictLookup k (ps.foldl lineStep st).values =
      ((occValues k ps).getLast?).or (dictLookup k st.values) := by
  induction ps generalizing st with
  | nil => simp [occValues]
  | cons p rest ih =>
    rw [List.foldl_cons, lineStep_char st p]
    cases h : lineKeyValue p.2 with
    | some kv =>
      simp only [h]
      by_cases hk : kv.1 = k
      · subst hk
        have hocc : occValues kv.1 (p :: rest) = kv.2 :: occValues kv.1 rest := by
          simp [occValues, List.filterMap_cons, h]
        rw [hocc, ih, getLast?_cons_or]
        simp [dictLookup_dictInsert_self]
      · have hocc : occValues k (p :: rest) = occValues k rest := by
          simp [occValues, List.filterMap_cons, h, hk]
        rw [hocc, ih]
        simp [dictLookup_dictInsert_ne k kv.1 kv.2 st.values hk]
    | none =>
      simp only [h]
      have hocc : occValues k (p :: rest) = occValues k rest := by
        simp [occValues, List.filterMap_cons, h]
      rw [hocc, ih]

/-- Number of occurrences of the key `k` in a list of keys, written with an
explicit `decide` so no `BEq` instance ambiguity arises. -/
def countOcc (k : Str) (l : List Str) : Nat :=
  l.countP (fun x => decide (x = k))

theorem countOcc_nil (k : Str) : countOcc k [] = 0 := rfl

theorem countOcc_append (k : Str) (l1 l2 : List Str) :
    countOcc k (l1 ++ l2) = countOcc k l1 + countOcc k l2 :=
  List.countP_append _ l1 l2

theorem countOcc_singleton_self (k : Str) : countOcc k [k] = 1 := by
  simp [countOcc, List.countP_cons]

theorem countOcc_singleton_ne (k x : Str) (h : ¬x = k) : countOcc k [x] = 0 := by
  simp [countOcc, List.countP_cons, h]

theorem foldl_dupCount (ps : List (Nat × Str)) (st : ParseState) (k : Str) :
    countOcc k (ps.foldl lineStep st).duplicates
      + (if dictLookup k st.values = none ∧ occValues k ps ≠ [] then 1 else 0)
    = countOcc k st.duplicates + (occValues k ps).length := by
  induction ps generalizing st with
  | nil => simp [occValues]
  | cons p rest ih =>
    rw [List.foldl_cons, lineStep_char st p]
    cases h : lineKeyValue p.2 with
    | some kv =>
      simp only [h]
      by_cases hk : kv.1 = k
      · subst hk
        have hocc : occValues kv.1 (p :: rest) = kv.2 :: occValues kv.1 rest := by
          simp [occValues, List.filterMap_cons, h]
        cases hv : dictLookup kv.1 st.values with
        | none =>
          have ihs := ih ⟨dictInsert kv.1 kv.2 st.values, st.duplicates, st.malformed⟩
          rw [dictLookup_dictInsert_self] at ihs
          simp only [reduceCtorEq, false_and, if_false, Nat.add_zero] at ihs
          simp only [hv, hocc, Option.isSome_none, Bool.false_eq_true, if_false,
            List.append_nil, List.length_cons]
          rw [if_pos (And.intro (by simp) (List.cons_ne_nil kv.2 (occValues kv.1 rest))),
            ihs]
          omega
        | some v =>
          have ihs := ih ⟨dictInsert kv.1 kv.2 st.values,
            st.duplicates ++ [kv.1], st.malformed⟩
          rw [dictLookup_dictInsert_self] at ihs
          simp only [reduceCtorEq, false_and, if_false, Nat.add_zero,
            countOcc_append, countOcc_singleton_self] at ihs
          simp only [hv, hocc, Option.isSome_some, if_true, List.length_cons]
          rw [if_neg (by simp), ihs]
          omega
      · have hocc : occValues k (p :: rest) = occValues k rest := by
          simp [occValues, List.filterMap_cons, h, hk]
        cases hv : dictLookup kv.1 st.values with
        | none =>
          have ihs := ih ⟨dictInsert kv.1 kv.2 st.values, st.duplicates, st.malformed⟩
          rw [dictLookup_dictInsert_ne k kv.1 kv.2 st.values hk] at ihs
          simp only [hv, hocc, Option.isSome_none, Bool.false_eq_true, if_false,
            List.append_nil]
          exact ihs
        | some v =>
          have ihs := ih ⟨dictInsert kv.1 kv.2 st.values,
            st.duplicates ++ [kv.1], st.malformed⟩
          rw [dictLookup_dictInsert_ne k kv.1 kv.2 st.values hk] at ihs
          simp only [countOcc_append, countOcc_singleton_ne k kv.1 hk,
            Nat.add_zero] at ihs
          simp only [hv, hocc, Option.isSome_some, if_true, countOcc_append,
            countOcc_singleton_ne k kv.1 hk, Nat.add_zero]
          exact ihs
    | none =>
      simp only [h]
      have hocc : occValues k (p :: rest) = occValues k rest := by
        simp [occValues, List.filterMap_cons, h]
      rw [hocc]
      exact ih ⟨st.values, st.duplicates,
        st.malformed ++ (if specMalformed p.2 then [p] else [])⟩

theorem foldl_dup_subset (ps : List (Nat × Str)) (st : ParseState)
    (hinv : ∀ k ∈ st.duplicates, (dictLookup k st.values).isSome) :
    ∀ k ∈ (ps.foldl lineStep st).duplicates,
      (dictLookup k (ps.foldl lineStep st).values).isSome := by
  induction ps generalizing st with
  | nil => exact hinv
  | cons p rest ih =>
    rw [List.foldl_cons, lineStep_char st p]
    cases h : lineKeyValue p.2 with
    | some kv =>
      simp only [h]
      apply ih
      intro k hk
      by_cases hkk : kv.1 = k
      · subst hkk
        simp [dictLookup_dictInsert_self]
      · simp only [List.mem_append] at hk
        rcases hk with hk | hk
        · simp only [dictLookup_dictInsert_ne k kv.1 kv.2 st.values hkk]
          exact hinv k hk
        · exfalso
          rcases (by split at hk <;> simp_all : k = kv.1) with e
          exact hkk e.symm
    | none =>
      simp only [h]
      apply ih
      exact hinv

/-!  Lemmas about `strLe` and `sortedDedup`.  -/

theorem strLe_total (a b : Str) : strLe a b || strLe b a := by
  induction a generalizing b with
  | nil => simp [strLe]
  | cons c as ih =>
    cases b with
    | nil => simp [strLe]
    | cons d bs =>
      by_cases h : c = d
      · subst h
        simpa [strLe] using ih bs
      · have := lt_or_gt_of_ne h
        rcases this with hlt | hgt
        · simp [strLe, h, hlt]
        · simp [strLe, h, Ne.symm h, not_lt_of_gt hgt, hgt]

theorem strLe_trans (a b c : Str) (hab : strLe a b) (hbc : strLe b c) :
    strLe a c := by
  induction a generalizing b c with
  | nil => simp [strLe]
  | cons x as ih =>
    cases b with
    | nil => simp [strLe] at hab
    | cons y bs =>
      cases c with
      | nil => simp [strLe] at hbc
      | cons z cs =>
        by_cases hxy : x = y
        · subst hxy
          by_cases hyz : x = z
          · subst hyz
            simp only [strLe, if_pos rfl] at hab hbc ⊢
            exact ih bs cs hab hbc
          · simp only [strLe, if_pos rfl] at hab
            simp only [strLe, if_neg hyz] at hbc ⊢
            exact hbc
        · by_cases hyz : y = z
          · subst hyz
            simp only [strLe, if_neg hxy] at hab ⊢
            exact hab
          · simp only [strLe, if_neg hxy] at hab
            simp only [strLe, if_neg hyz] at hbc
            have hxz : x < z := lt_trans (of_decide_eq_true hab) (of_decide_eq_true hbc)
            simp only [strLe, if_neg (ne_of_lt hxz)]
            exact decide_eq_true hxz

theorem sortedDedup_perm_dedup (l : List Str) :
    (sortedDedup l).Perm l.dedup :=
  List.mergeSort_perm l.dedup strLe

theorem countOcc_dedup (k : Str) (l : List Str) :
    countOcc k l.dedup = if k ∈ l then 1 else 0 := by
  induction l with
  | nil => simp [countOcc]
  | cons a t ih =>
    by_cases ha : a ∈ t
    · rw [List.dedup_cons_of_mem ha, ih]
      by_cases hk : k = a
      · subst hk
        simp [ha]
      · simp [List.mem_cons, hk]
    · rw [List.dedup_cons_of_not_mem ha]
      rw [show a :: t.dedup = [a] ++ t.dedup from rfl, countOcc_append, ih]
      by_cases hk : k = a
      · subst hk
        have hkt : k ∉ t := ha
        simp [countOcc_singleton_self, hkt]
      · rw [countOcc_singleton_ne k a (fun e => hk e.symm)]
        simp [List.mem_cons, hk]

theorem count_sortedDedup (l : List Str) (k : Str) (hk : k ∈ l) :
    countOcc k (sortedDedup l) = 1 := by
  unfold countOcc sortedDedup
  rw [(List.mergeSort_perm l.dedup strLe).countP_eq]
  have h := countOcc_dedup k l
  unfold countOcc at h
  rw [h, if_pos hk]

theorem nodup_sortedDedup (l : List Str) : (sortedDedup l).Nodup :=
  ((sortedDedup_perm_dedup l).symm.nodup_iff).mp (List.nodup_dedup l)

theorem sorted_sortedDedup (l : List Str) :
    (sortedDedup l).Pairwise (fun a b => strLe a b = true) :=
  List.sorted_mergeSort (fun a b c => strLe_trans a b c) strLe_total l.dedup

theorem strContains_iff (hay pat : Str) : strContains hay pat = true ↔ pat <:+: hay := by
  induction hay with
  | nil =>
    simp only [strContains, List.isEmpty_iff]
    constructor
    · intro h
      rw [h]
    · intro h
      exact List.eq_nil_of_infix_nil h
  | cons c t ih =>
    simp only [strContains, Bool.or_eq_true, List.isPrefixOf_iff_prefix, ih,
      List.infix_cons_iff]

theorem keyOccurrences_eq_occValues (content k : Str) :
    occValues k (List.enumFrom 1 (splitlines content)) = keyOccurrences content k := by
  rw [occValues_enumFrom]
  rfl

theorem countOcc_pos_mem (k : Str) (l : List Str) (h : 0 < countOcc k l) : k ∈ l := by
  unfold countOcc at h
  rw [List.countP_pos_iff] at h
  rcases h with ⟨a, ha, he⟩
  rw [of_decide_eq_true he] at ha
  exact ha

/-- C3: a non-blank non-comment line is recorded as malformed exactly when its
trimmed form has no `=` or the trimmed prefix before the first `=` fails the
key grammar (`specMalformed`); the record keeps the original untrimmed text
with its 1-based line number, and every line of the file is processed. -/
theorem malformed_lines_exactly (content : Str) :
    (parse_env content).malformed =
      (List.enumFrom 1 (splitlines content)).filter (fun p => specMalformed p.2) := by
  unfold parse_env
  rw [foldl_malformed]
  rfl

/-- C2: when a key occurs on `N ≥ 2` well-formed lines, the returned mapping
binds it to the value of the last occurrence, the duplicates list contains it
exactly `N - 1` times, and the printed duplicate report (`sorted(set(...))`)
lists it exactly once, with no repetition overall and sorted by `strLe`. -/
theorem duplicate_key_semantics (content k : Str)
    (h : 2 ≤ (keyOccurrences content k).length) :
    dictLookup k (parse_env content).values = (keyOccurrences content k).getLast?
    ∧ countOcc k (parse_env content).duplicates = (keyOccurrences content k).length - 1
    ∧ countOcc k (sortedDedup (parse_env content).duplicates) = 1
    ∧ (sortedDedup (parse_env content).duplicates).Nodup
    ∧ (sortedDedup (parse_env content).duplicates).Pairwise
        (fun a b => strLe a b = true) := by
  have hne : keyOccurrences content k ≠ [] := by
    intro e
    rw [e] at h
    simp at h
  have hlook : dictLookup k (parse_env content).values =
      (keyOccurrences content k).getLast? := by
    unfold parse_env
    rw [foldl_lookup, keyOccurrences_eq_occValues]
    exact Option.or_none
  have hcnt : countOcc k (parse_env content).duplicates =
      (keyOccurrences content k).length - 1 := by
    have hd := foldl_dupCount (List.enumFrom 1 (splitlines content)) ⟨[], [], []⟩ k
    rw [keyOccurrences_eq_occValues] at hd
    rw [if_pos (And.intro (show dictLookup k
      (⟨[], [], []⟩ : ParseState).values = none from rfl) hne)] at hd
    unfold parse_env
    simp only [countOcc_nil] at hd
    omega
  have hmem : k ∈ (parse_env content).duplicates := by
    apply countOcc_pos_mem
    rw [hcnt]
    omega
  exact ⟨hlook, hcnt, count_sortedDedup _ k hmem, nodup_sortedDedup _,
    sorted_sortedDedup _⟩

/-- C9: every key in the duplicates list of `parse_env` is also a key of the
returned mapping — duplicates are only recorded for keys being (re)stored. -/
theorem duplicates_subset_mapping (content k : Str)
    (h : k ∈ (parse_env content).duplicates) :
    (dictLookup k (parse_env content).values).isSome := by
  unfold parse_env at h ⊢
  exact foldl_dup_subset (List.enumFrom 1 (splitlines content)) ⟨[], [], []⟩
    (fun k hk => absurd hk (List.not_mem_nil k)) k h

/-- C4: a required key is flagged missing iff it is absent from the mapping or
bound to the empty (trimmed) value; in particular for the file `KEY=` the key
`KEY` is missing when required, yet neither malformed nor a placeholder. -/
theorem missing_required_semantics :
    (∀ (content : Str) (req : List Str) (k : Str), k ∈ req →
      (k ∈ missingKeys (parse_env content).values req ↔
        dictLookup k (parse_env content).values = none
        ∨ dictLookup k (parse_env content).values = some []))
    ∧ ("KEY").toList ∈ missingKeys (parse_env (("KEY=").toList)).values
        [("KEY").toList]
    ∧ (parse_env (("KEY=").toList)).malformed = []
    ∧ placeholderKeys (parse_env (("KEY=").toList)).values = [] := by
  refine ⟨?_, by decide, by decide, by decide⟩
  intro content req k hk
  unfold missingKeys
  rw [List.mem_filter]
  constructor
  · rintro ⟨-, hp⟩
    cases hv : dictLookup k (parse_env content).values with
    | none => exact Or.inl rfl
    | some v =>
      rw [hv] at hp
      simp only [List.isEmpty_iff] at hp
      exact Or.inr (by rw [hp])
  · intro hor
    refine ⟨hk, ?_⟩
    rcases hor with hv | hv <;> simp [hv]

/-- C5: `is_placeholder` holds iff the lower-cased value contains one of the
seven fixed substrings, and the empty value is never flagged. -/
theorem placeholder_detector_spec (v : Str) :
    (is_placeholder v = true ↔
      (("changeme").toList <:+: pyLower v ∨ ("todo").toList <:+: pyLower v
        ∨ ("your-key").toList <:+: pyLower v ∨ ("your_token").toList <:+: pyLower v
        ∨ ("example").toList <:+: pyLower v ∨ ("replace-me").toList <:+: pyLower v
        ∨ ("placeholder").toList <:+: pyLower v))
    ∧ is_placeholder [] = false := by
  constructor
  · unfold is_placeholder PLACEHOLDER_PATTERNS
    simp only [List.any_cons, List.any_nil, Bool.or_eq_true, Bool.or_false,
      strContains_iff]
  · rfl

theorem dictLookup_isSome_iff_mem_keys (k : Str) (d : List (Str × Str)) :
    (dictLookup k d).isSome = true ↔ k ∈ d.map Prod.fst := by
  induction d with
  | nil => simp [dictLookup]
  | cons kv rest ih =>
    by_cases h : kv.1 = k
    · simp [dictLookup, h]
    · have hne : ¬(k = kv.1) := fun e => h e.symm
      simp [dictLookup, h, ih, hne]

/-- C6: channel parsing returns the ordered trimmed lower-cased segments with
empty segments skipped (empty input is a valid empty result); it fails exactly
when some identifier is not a `CHANNEL_LINKS` key, and the single error
message names every offending identifier, joined in order. -/
theorem parse_channels_spec :
    parse_channels [] = Except.ok []
    ∧ (∀ raw : Str,
        (parse_channels raw = Except.ok (normalizeChannels raw) ↔
          invalidChannels raw = [])
        ∧ (∀ cs, parse_channels raw = Except.ok cs → cs = normalizeChannels raw)
        ∧ (invalidChannels raw ≠ [] →
            parse_channels raw = Except.error
              (("Unsupported channels: ").toList
                ++ joinSep ((", ").toList) (invalidChannels raw)))
        ∧ (∀ c, c ∈ invalidChannels raw ↔
            c ∈ normalizeChannels raw ∧ (dictLookup c CHANNEL_LINKS).isNone))
    ∧ (∀ c : Str, (dictLookup c CHANNEL_LINKS).isSome ↔
        (c = ("telegram").toList ∨ c = ("discord").toList
          ∨ c = ("slack").toList)) := by
  refine ⟨by rfl, ?_, ?_⟩
  · intro raw
    have hpc : parse_channels raw =
        if (invalidChannels raw).isEmpty then Except.ok (normalizeChannels raw)
        else Except.error (("Unsupported channels: ").toList
          ++ joinSep ((", ").toList) (invalidChannels raw)) := rfl
    by_cases hi : invalidChannels raw = []
    · have hok : parse_channels raw = Except.ok (normalizeChannels raw) := by
        rw [hpc, if_pos (List.isEmpty_iff.mpr hi)]
      refine ⟨⟨fun _ => hi, fun _ => hok⟩, ?_, ?_, ?_⟩
      · intro cs hcs
        rw [hok] at hcs
        exact (Except.ok.inj hcs).symm
      · intro hne
        exact absurd hi hne
      · intro c
        unfold invalidChannels
        rw [List.mem_filter]
    · have herr : parse_channels raw = Except.error
          (("Unsupported channels: ").toList
            ++ joinSep ((", ").toList) (invalidChannels raw)) := by
        rw [hpc, if_neg (fun he => hi (List.isEmpty_iff.mp he))]
      refine ⟨⟨fun he => ?_, fun he => absurd he hi⟩, ?_, fun _ => herr, ?_⟩
      · rw [herr] at he
        exact absurd he (by simp)
      · intro cs hcs
        rw [herr] at hcs
        exact absurd hcs (by simp)
      · intro c
        unfold invalidChannels
        rw [List.mem_filter]
  · intro c
    rw [show ((dictLookup c CHANNEL_LINKS).isSome = true) ↔
        c ∈ CHANNEL_LINKS.map Prod.fst from dictLookup_isSome_iff_mem_keys c _]
    simp [CHANNEL_LINKS]

theorem channelLoop_eq_flatMap (cs : List Str)
    (h : ∀ c ∈ cs, (dictLookup c CHANNEL_LINKS).isSome) :
    channelLoop cs = some (cs.flatMap (fun c =>
      [configureLine c ((dictLookup c CHANNEL_LINKS).getD []), smokeLine c])) := by
  induction cs with
  | nil => rfl
  | cons c rest ih =>
    obtain ⟨url, hurl⟩ := Option.isSome_iff_exists.mp (h c (List.mem_cons_self c rest))
    have ht := ih (fun x hx => h x (List.mem_cons_of_mem c hx))
    simp [channelLoop, hurl, ht, List.flatMap_cons]

/-- C10: with a provider accepted by the argparse `choices` (i.e. a key of
`PROVIDER_LINKS`) and a channel list produced by a successful
`parse_channels`, `render` is total — neither dictionary lookup can fail. -/
theorem render_total (provider raw : Str) (cs : List Str) (environment now : Str)
    (hp : (dictLookup provider PROVIDER_LINKS).isSome)
    (hc : parse_channels raw = Except.ok cs) :
    (render provider cs environment now).isSome := by
  have hpc : parse_channels raw =
      if (invalidChannels raw).isEmpty then Except.ok (normalizeChannels raw)
      else Except.error (("Unsupported channels: ").toList
        ++ joinSep ((", ").toList) (invalidChannels raw)) := rfl
  rw [hpc] at hc
  have hcs : cs = normalizeChannels raw ∧ invalidChannels raw = [] := by
    by_cases hi : invalidChannels raw = []
    · rw [if_pos (List.isEmpty_iff.mpr hi)] at hc
      exact ⟨(Except.ok.inj hc).symm, hi⟩
    · rw [if_neg (fun he => hi (List.isEmpty_iff.mp he))] at hc
      exact absurd hc (by simp)
  have hvalid : ∀ c ∈ cs, (dictLookup c CHANNEL_LINKS).isSome := by
    intro c hmem
    rw [hcs.1] at hmem
    have := hcs.2
    unfold invalidChannels at this
    rw [List.filter_eq_nil_iff] at this
    have hn := this c hmem
    cases ho : dictLookup c CHANNEL_LINKS with
    | none => exact absurd (by simp [ho]) hn
    | some v => simp
  obtain ⟨url, hurl⟩ := Option.isSome_iff_exists.mp hp
  have hblock : ∃ b, channelBlock cs = some b := by
    unfold channelBlock
    by_cases he : cs.isEmpty
    · exact ⟨[noChannelsLine], by rw [if_pos he]⟩
    · rw [if_neg he]
      exact ⟨_, channelLoop_eq_flatMap cs hvalid⟩
  obtain ⟨b, hb⟩ := hblock
  unfold render renderLines
  rw [hurl, hb]
  simp

theorem dropWhile_append_all {α : Type} (p : α → Bool) (l1 l2 : List α)
    (h : ∀ a ∈ l1, p a = true) :
    List.dropWhile p (l1 ++ l2) = List.dropWhile p l2 := by
  induction l1 with
  | nil => rfl
  | cons a t ih =>
    rw [List.cons_append, List.dropWhile_cons, if_pos (h a (List.mem_cons_self a t))]
    exact ih (fun x hx => h x (List.mem_cons_of_mem a hx))

theorem takeWhile_append_all {α : Type} (p : α → Bool) (l1 l2 : List α)
    (h : ∀ a ∈ l1, p a = true) :
    List.takeWhile p (l1 ++ l2) = l1 ++ List.takeWhile p l2 := by
  induction l1 with
  | nil => rfl
  | cons a t ih =>
    rw [List.cons_append, List.takeWhile_cons, if_pos (h a (List.mem_cons_self a t)),
      ih (fun x hx => h x (List.mem_cons_of_mem a hx)), List.cons_append]

theorem ne_of_head_ne (a b : Str) (c d : Char) (ha : a.head? = some c)
    (hb : b.head? = some d) (hcd : c ≠ d) : a ≠ b := by
  intro e
  rw [e, hb] at ha
  exact hcd (Option.some.inj ha).symm

theorem preBody_ne_header (now provider environment provider_url : Str) :
    ∀ l ∈ preBody now provider environment provider_url,
      (l != channelsHeader) = true := by
  intro l hl
  rw [bne_iff_ne]
  simp only [preBody, List.mem_cons, List.not_mem_nil, or_false] at hl
  rcases hl with rfl | rfl | rfl | rfl | rfl | rfl | rfl | rfl | rfl | rfl | rfl
    | rfl | rfl | rfl | rfl | rfl | rfl
  all_goals first
    | decide
    | exact ne_of_head_ne _ _ '-' '#' rfl rfl (by decide)

theorem channelLoop_head_dash (cs b : List Str) (hb : channelLoop cs = some b) :
    ∀ l ∈ b, l.head? = some '-' := by
  induction cs generalizing b with
  | nil =>
    have : b = [] := (Option.some.inj hb).symm
    subst this
    intro l hl
    exact absurd hl (List.not_mem_nil l)
  | cons c rest ih =>
    unfold channelLoop at hb
    cases hu : dictLookup c CHANNEL_LINKS with
    | none => rw [hu] at hb; exact absurd hb (by simp)
    | some url =>
      cases ht : channelLoop rest with
      | none => rw [hu, ht] at hb; exact absurd hb (by simp)
      | some tail =>
        rw [hu, ht] at hb
        have hbe : configureLine c url :: smokeLine c :: tail = b := Option.some.inj hb
        subst hbe
        intro l hl
        rcases List.mem_cons.mp hl with rfl | hl2
        · rfl
        · rcases List.mem_cons.mp hl2 with rfl | hl3
          · rfl
          · exact ih tail ht l hl3

theorem channelBlock_nonblank (cs b : List Str) (hb : channelBlock cs = some b) :
    ∀ l ∈ b, (!l.isEmpty) = true := by
  unfold channelBlock at hb
  by_cases he : cs.isEmpty
  · rw [if_pos he] at hb
    have hbe : [noChannelsLine] = b := Option.some.inj hb
    subst hbe
    intro l hl
    rcases List.mem_cons.mp hl with rfl | hl2
    · rfl
    · exact absurd hl2 (List.not_mem_nil l)
  · rw [if_neg he] at hb
    intro l hl
    have hh := channelLoop_head_dash cs b hb l hl
    cases l with
    | nil => exact absurd hh (by simp)
    | cons x t => rfl

theorem channelsSection_eq_block (provider : Str) (cs : List Str)
    (environment now : Str) (doc block : List Str)
    (hb : channelBlock cs = some block)
    (hr : renderLines provider cs environment now = some doc) :
    channelsSection doc = block := by
  unfold renderLines at hr
  cases hu : dictLookup provider PROVIDER_LINKS with
  | none => rw [hu] at hr; exact absurd hr (by simp)
  | some url =>
    rw [hu, hb] at hr
    have hde : preBody now provider environment url
        ++ [channelsHeader] ++ block ++ postLines = doc := Option.some.inj hr
    subst hde
    unfold channelsSection
    rw [List.append_assoc, List.append_assoc,
      dropWhile_append_all _ _ _ (preBody_ne_header now provider environment url)]
    rw [show ([channelsHeader] ++ (block ++ postLines))
      = channelsHeader :: (block ++ postLines) from rfl]
    rw [List.dropWhile_cons, if_neg (by simp)]
    rw [List.drop_succ_cons, List.drop_zero]
    rw [takeWhile_append_all _ _ _ (channelBlock_nonblank cs block hb)]
    rw [show List.takeWhile (fun l => !l.isEmpty) postLines = [] from rfl,
      List.append_nil]

theorem length_flatMap_pairs (cs : List Str) :
    (cs.flatMap (fun c =>
      [configureLine c ((dictLookup c CHANNEL_LINKS).getD []), smokeLine c])).length
      = 2 * cs.length := by
  induction cs with
  | nil => rfl
  | cons c rest ih =>
    rw [List.flatMap_cons, List.length_append, ih]
    simp only [List.length_cons, List.length_nil]
    omega

/-- C7: for a valid provider, the Channels section of the rendered document is
exactly the single no-channels line (one such line, zero Configure lines)
when the channel list is empty, and exactly the configure line followed by
the smoke-test line per channel in input order (2·len lines, repetitions
included) when it is non-empty. -/
theorem channels_section_spec (provider : Str) (channels : List Str)
    (environment now : Str)
    (hp : (dictLookup provider PROVIDER_LINKS).isSome)
    (hc : ∀ c ∈ channels, (dictLookup c CHANNEL_LINKS).isSome) :
    ∃ doc, renderLines provider channels environment now = some doc
      ∧ (channels = [] →
          channelsSection doc = [noChannelsLine]
          ∧ ∀ l ∈ channelsSection doc, ¬(("Configure").toList <:+: l))
      ∧ (channels ≠ [] →
          channelsSection doc = channels.flatMap (fun c =>
            [configureLine c ((dictLookup c CHANNEL_LINKS).getD []), smokeLine c])
          ∧ (channelsSection doc).length = 2 * channels.length) := by
  obtain ⟨url, hurl⟩ := Option.isSome_iff_exists.mp hp
  by_cases he : channels = []
  · subst he
    have hb : channelBlock [] = some [noChannelsLine] := rfl
    have hr : renderLines provider [] environment now
        = some (preBody now provider environment url
          ++ [channelsHeader] ++ [noChannelsLine] ++ postLines) := by
      unfold renderLines
      rw [hurl, hb]
    refine ⟨_, hr, fun _ => ?_, fun hne => absurd rfl hne⟩
    have hsec := channelsSection_eq_block provider [] environment now _ _ hb hr
    rw [hsec]
    refine ⟨rfl, ?_⟩
    intro l hl
    rcases List.mem_cons.mp hl with rfl | hl2
    · decide
    · exact absurd hl2 (List.not_mem_nil l)
  · have hb := channelLoop_eq_flatMap channels hc
    have hb2 : channelBlock channels = some (channels.flatMap (fun c =>
        [configureLine c ((dictLookup c CHANNEL_LINKS).getD []), smokeLine c])) := by
      unfold channelBlock
      rw [if_neg (fun hie => he (List.isEmpty_iff.mp hie)), hb]
    have hr : renderLines provider channels environment now
        = some (preBody now provider environment url
          ++ [channelsHeader] ++ (channels.flatMap fun c =>
            [configureLine c ((dictLookup c CHANNEL_LINKS).getD []), smokeLine c])
          ++ postLines) := by
      unfold renderLines
      rw [hurl, hb2]
    refine ⟨_, hr, fun heq => absurd heq he, fun _ => ?_⟩
    have hsec := channelsSection_eq_block provider channels environment now _ _ hb2 hr
    rw [hsec]
    exact ⟨rfl, length_flatMap_pairs channels⟩

theorem rstrip_prefix (l : Str) :
    ((l.reverse.dropWhile isPySpace).reverse) <+: l := by
  have hs : l.reverse.dropWhile isPySpace <:+ l.reverse := List.dropWhile_suffix _
  have hp := List.reverse_prefix.mpr hs
  rwa [List.reverse_reverse] at hp

theorem dropWhile_head_not {α : Type} (p : α → Bool) (l : List α) (c : α)
    (t : List α) (h : l.dropWhile p = c :: t) : p c = false := by
  induction l with
  | nil => exact absurd h (by simp)
  | cons a r ih =>
    rw [List.dropWhile_cons] at h
    by_cases hp : p a = true
    · rw [if_pos hp] at h
      exact ih h
    · rw [if_neg hp] at h
      have h1 : a = c := (List.cons.inj h).1
      rw [← h1]
      exact Bool.eq_false_iff.mpr hp

theorem pyStrip_head_not_space (raw : Str) (c : Char) (t : Str)
    (h : pyStrip raw = c :: t) : isPySpace c = false := by
  have hpre : pyStrip raw <+: raw.dropWhile isPySpace := rstrip_prefix _
  rw [h, List.prefix_iff_eq_append] at hpre
  exact dropWhile_head_not isPySpace raw c _ hpre.symm

theorem rstrip_cons_head (c : Char) (t : Str) (hc : isPySpace c = false) :
    ∃ u, ((c :: t).reverse.dropWhile isPySpace).reverse = c :: u := by
  have hne : ((c :: t).reverse.dropWhile isPySpace).reverse ≠ [] := by
    intro e
    rw [List.reverse_eq_nil_iff, List.dropWhile_eq_nil_iff] at e
    have hce := e c (by simp)
    rw [hc] at hce
    exact Bool.false_ne_true hce
  have hpre := rstrip_prefix (c :: t)
  cases hx : ((c :: t).reverse.dropWhile isPySpace).reverse with
  | nil => exact absurd hx hne
  | cons x u =>
    rw [hx] at hpre
    obtain ⟨s, hs⟩ := hpre
    have hcx : c = x := (List.cons.inj (show c :: t = x :: (u ++ s) by
      rw [← hs]; rfl)).1
    refine ⟨u, ?_⟩
    rw [hcx]

theorem pyStrip_cons_head (c : Char) (t : Str) (hc : isPySpace c = false) :
    ∃ u, pyStrip (c :: t) = c :: u := by
  unfold pyStrip
  rw [List.dropWhile_cons, if_neg (by simp [hc])]
  exact rstrip_cons_head c t hc

theorem takeWhile_until_eq (key0 rest : Str) (h : '=' ∉ key0) :
    ((key0 ++ '=' :: rest).takeWhile (fun x => x != '=')) = key0 := by
  induction key0 with
  | nil => rw [List.nil_append, List.takeWhile_cons, if_neg (by simp)]
  | cons a t ih =>
    have ha : a ≠ '=' := fun e => h (by rw [← e]; exact List.mem_cons_self a t)
    rw [List.cons_append, List.takeWhile_cons, if_pos (by simp [ha]),
      ih (fun m => h (List.mem_cons_of_mem a m))]

theorem dropWhile_until_eq (key0 rest : Str) (h : '=' ∉ key0) :
    ((key0 ++ '=' :: rest).dropWhile (fun x => x != '=')) = '=' :: rest := by
  induction key0 with
  | nil => rw [List.nil_append, List.dropWhile_cons, if_neg (by simp)]
  | cons a t ih =>
    have ha : a ≠ '=' := fun e => h (by rw [← e]; exact List.mem_cons_self a t)
    rw [List.cons_append, List.dropWhile_cons, if_pos (by simp [ha])]
    exact ih (fun m => h (List.mem_cons_of_mem a m))

/-- C8: a well-formed line is split at the first `=` only — the value may
itself contain further `=` characters — and both the key and the value are
trimmed of surrounding whitespace before being stored. -/
theorem split_on_first_equals (st : ParseState) (idx : Nat) (raw key0 rest : Str)
    (hsplit : pyStrip raw = key0 ++ '=' :: rest)
    (hkey0 : '=' ∉ key0)
    (hkey : keyMatch (pyStrip key0) = true) :
    lineStep st (idx, raw) =
      { values := dictInsert (pyStrip key0) (pyStrip rest) st.values,
        duplicates := st.duplicates ++
          (if (dictLookup (pyStrip key0) st.values).isSome then [pyStrip key0]
           else []),
        malformed := st.malformed } := by
  have hkv : lineKeyValue raw = some (pyStrip key0, pyStrip rest) := by
    cases key0 with
    | nil => exact absurd hkey (by decide)
    | cons c k0t =>
      have hsp : isPySpace c = false :=
        pyStrip_head_not_space raw c (k0t ++ '=' :: rest) (by rw [hsplit]; rfl)
      obtain ⟨u, hu⟩ := pyStrip_cons_head c k0t hsp
      have hch : c ≠ '#' := by
        intro e
        rw [hu, e] at hkey
        simp [keyMatch] at hkey
      have hmem : '=' ∈ c :: (k0t ++ '=' :: rest) := by simp
      have htake : (c :: (k0t ++ '=' :: rest)).takeWhile (fun x => x != '=')
          = c :: k0t := by
        have ht := takeWhile_until_eq (c :: k0t) rest hkey0
        rwa [List.cons_append] at ht
      have hdrop : (c :: (k0t ++ '=' :: rest)).dropWhile (fun x => x != '=')
          = '=' :: rest := by
        have hd := dropWhile_until_eq (c :: k0t) rest hkey0
        rwa [List.cons_append] at hd
      unfold lineKeyValue
      rw [hsplit, List.cons_append]
      dsimp only
      rw [if_neg hch, if_pos hmem, htake, hdrop, if_pos hkey]
      rfl
  rw [lineStep_char st (idx, raw)]
  simp only [hkv]

theorem validateReport_eq_reportPair (content : Str) (req : List Str) :
    validateReport content req = reportPair (parse_env content).values.length
      (parse_env content).malformed (parse_env content).duplicates
      (missingKeys (parse_env content).values req)
      (placeholderKeys (parse_env content).values) := rfl

theorem bnot_isEmpty_iff {α : Type} (l : List α) : (!l.isEmpty) = true ↔ l ≠ [] := by
  cases l <;> simp

theorem mem_header_block_iff {α β : Type} (h hdr : Str) (l : List α) (m : List β)
    (f : β → Str) (hh : h.head? = some '\n') (hf : ∀ b, (f b).head? = some ' ') :
    (h ∈ (if l.isEmpty then [] else hdr :: m.map f) ↔ (h = hdr ∧ l ≠ [])) := by
  by_cases he : l.isEmpty
  · rw [if_pos he]
    simp [List.isEmpty_iff.mp he]
  · rw [if_neg he]
    have hl : l ≠ [] := fun e => he (List.isEmpty_iff.mpr e)
    simp only [List.mem_cons, List.mem_map]
    constructor
    · rintro (rfl | ⟨b, -, hb⟩)
      · exact ⟨rfl, hl⟩
      · exact absurd hb (ne_of_head_ne (f b) h ' ' '\n' (hf b) hh (by decide))
    · rintro ⟨rfl, -⟩
      exact Or.inl rfl

theorem mem_reportLines_iff (n : Nat) (mal : List (Nat × Str))
    (dups missing placeholders : List Str) (h : Str) (hh : h.head? = some '\n') :
    h ∈ reportLines n mal dups missing placeholders ↔
      ((h = malformedHeader ∧ mal ≠ []) ∨ (h = duplicatesHeader ∧ dups ≠ [])
        ∨ (h = missingHeader ∧ missing ≠ [])
        ∨ (h = placeholdersHeader ∧ placeholders ≠ [])) := by
  unfold reportLines
  have hpc : ¬(h = parsedCountLine n) :=
    ne_of_head_ne h (parsedCountLine n) '\n' 'P' hh rfl (by decide)
  rw [List.mem_append, List.mem_append, List.mem_append, List.mem_append,
    List.mem_singleton,
    mem_header_block_iff h malformedHeader mal mal malformedItemLine hh
      (fun b => rfl),
    mem_header_block_iff h duplicatesHeader dups (sortedDedup dups) itemLine hh
      (fun b => rfl),
    mem_header_block_iff h missingHeader missing missing itemLine hh
      (fun b => rfl),
    mem_header_block_iff h placeholdersHeader placeholders placeholders itemLine hh
      (fun b => rfl)]
  simp [hpc, or_assoc]

theorem reportPair_spec (n : Nat) (mal : List (Nat × Str))
    (dups missing placeholders : List Str) :
    ((reportPair n mal dups missing placeholders).2 = 0
        ∧ okMsg ∈ (reportPair n mal dups missing placeholders).1
      ↔ (mal = [] ∧ dups = [] ∧ missing = [] ∧ placeholders = []))
    ∧ ((reportPair n mal dups missing placeholders).2 = 1
        ∧ failMsg ∈ (reportPair n mal dups missing placeholders).1
      ↔ ¬(mal = [] ∧ dups = [] ∧ missing = [] ∧ placeholders = []))
    ∧ (malformedHeader ∈ (reportPair n mal dups missing placeholders).1 ↔ mal ≠ [])
    ∧ (duplicatesHeader ∈ (reportPair n mal dups missing placeholders).1 ↔ dups ≠ [])
    ∧ (missingHeader ∈ (reportPair n mal dups missing placeholders).1 ↔ missing ≠ [])
    ∧ (placeholdersHeader ∈ (reportPair n mal dups missing placeholders).1
      ↔ placeholders ≠ []) := by
  by_cases hall : mal = [] ∧ dups = [] ∧ missing = [] ∧ placeholders = []
  · obtain ⟨h1, h2, h3, h4⟩ := hall
    subst h1
    subst h2
    subst h3
    subst h4
    have hr : reportPair n [] [] [] [] = ([parsedCountLine n] ++ [okMsg], 0) := by
      simp [reportPair, reportLines]
    rw [hr]
    have hm1 : ¬(malformedHeader = parsedCountLine n) :=
      ne_of_head_ne malformedHeader (parsedCountLine n) '\n' 'P' rfl rfl (by decide)
    have hm2 : ¬(duplicatesHeader = parsedCountLine n) :=
      ne_of_head_ne duplicatesHeader (parsedCountLine n) '\n' 'P' rfl rfl (by decide)
    have hm3 : ¬(missingHeader = parsedCountLine n) :=
      ne_of_head_ne missingHeader (parsedCountLine n) '\n' 'P' rfl rfl (by decide)
    have hm4 : ¬(placeholdersHeader = parsedCountLine n) :=
      ne_of_head_ne placeholdersHeader (parsedCountLine n) '\n' 'P' rfl rfl (by decide)
    refine ⟨by simp, by simp, ?_, ?_, ?_, ?_⟩
    · simp [hm1, (by decide : ¬(malformedHeader = okMsg))]
    · simp [hm2, (by decide : ¬(duplicatesHeader = okMsg))]
    · simp [hm3, (by decide : ¬(missingHeader = okMsg))]
    · simp [hm4, (by decide : ¬(placeholdersHeader = okMsg))]
  · have hc : (!mal.isEmpty || !dups.isEmpty || !missing.isEmpty
        || !placeholders.isEmpty) = true := by
      rw [Bool.or_eq_true, Bool.or_eq_true, Bool.or_eq_true,
        bnot_isEmpty_iff, bnot_isEmpty_iff, bnot_isEmpty_iff, bnot_isEmpty_iff]
      tauto
    have hr : reportPair n mal dups missing placeholders
        = (reportLines n mal dups missing placeholders ++ [failMsg], 1) := by
      unfold reportPair
      rw [if_pos hc]
    rw [hr]
    refine ⟨by simp [hall], ?_, ?_, ?_, ?_, ?_⟩
    · simp [hall]
    · rw [show ((reportLines n mal dups missing placeholders ++ [failMsg],
        (1 : Nat)).1) = reportLines n mal dups missing placeholders ++ [failMsg]
        from rfl, List.mem_append,
        mem_reportLines_iff n mal dups missing placeholders malformedHeader rfl]
      simp [(by decide : ¬(malformedHeader = duplicatesHeader)),
        (by decide : ¬(malformedHeader = missingHeader)),
        (by decide : ¬(malformedHeader = placeholdersHeader)),
        (by decide : ¬(malformedHeader = failMsg))]
    · rw [show ((reportLines n mal dups missing placeholders ++ [failMsg],
        (1 : Nat)).1) = reportLines n mal dups missing placeholders ++ [failMsg]
        from rfl, List.mem_append,
        mem_reportLines_iff n mal dups missing placeholders duplicatesHeader rfl]
      simp [(by decide : ¬(duplicatesHeader = malformedHeader)),
        (by decide : ¬(duplicatesHeader = missingHeader)),
        (by decide : ¬(duplicatesHeader = placeholdersHeader)),
        (by decide : ¬(duplicatesHeader = failMsg))]
    · rw [show ((reportLines n mal dups missing placeholders ++ [failMsg],
        (1 : Nat)).1) = reportLines n mal dups missing placeholders ++ [failMsg]
        from rfl, List.mem_append,
        mem_reportLines_iff n mal dups missing placeholders missingHeader rfl]
      simp [(by decide : ¬(missingHeader = malformedHeader)),
        (by decide : ¬(missingHeader = duplicatesHeader)),
        (by decide : ¬(missingHeader = placeholdersHeader)),
        (by decide : ¬(missingHeader = failMsg))]
    · rw [show ((reportLines n mal dups missing placeholders ++ [failMsg],
        (1 : Nat)).1) = reportLines n mal dups missing placeholders ++ [failMsg]
        from rfl, List.mem_append,
        mem_reportLines_iff n mal dups missing placeholders placeholdersHeader rfl]
      simp [(by decide : ¬(placeholdersHeader = malformedHeader)),
        (by decide : ¬(placeholdersHeader = duplicatesHeader)),
        (by decide : ¬(placeholdersHeader = missingHeader)),
        (by decide : ¬(placeholdersHeader = failMsg))]

/-- C1: the validator passes (exit code 0 with the OK message printed) iff
all four diagnostic categories are empty; otherwise it exits 1 with the FAIL
message; and each category block is printed exactly when that category is
non-empty, independently of the other three — no short-circuit. -/
theorem validator_report_spec (content : Str) (req : List Str) :
    ((validateReport content req).2 = 0 ∧ okMsg ∈ (validateReport content req).1
      ↔ ((parse_env content).malformed = [] ∧ (parse_env content).duplicates = []
        ∧ missingKeys (parse_env content).values req = []
        ∧ placeholderKeys (parse_env content).values = []))
    ∧ ((validateReport content req).2 = 1 ∧ failMsg ∈ (validateReport content req).1
      ↔ ¬((parse_env content).malformed = [] ∧ (parse_env content).duplicates = []
        ∧ missingKeys (parse_env content).values req = []
        ∧ placeholderKeys (parse_env content).values = []))
    ∧ (malformedHeader ∈ (validateReport content req).1
      ↔ (parse_env content).malformed ≠ [])
    ∧ (duplicatesHeader ∈ (validateReport content req).1
      ↔ (parse_env content).duplicates ≠ [])
    ∧ (missingHeader ∈ (validateReport content req).1
      ↔ missingKeys (parse_env content).values req ≠ [])
    ∧ (placeholdersHeader ∈ (validateReport content req).1
      ↔ placeholderKeys (parse_env content).values ≠ []) := by
  rw [validateReport_eq_reportPair content req]
  exact reportPair_spec (parse_env content).values.length
    (parse_env content).malformed (parse_env content).duplicates
    (missingKeys (parse_env content).values req)
    (placeholderKeys (parse_env content).values)

/-- Witness for C2 at the spec's own example `A=1\nA=2\n`. -/
theorem duplicate_key_semantics_witness :
    dictLookup (("A").toList) (parse_env (("A=1\nA=2\n").toList)).values
      = (keyOccurrences (("A=1\nA=2\n").toList) (("A").toList)).getLast?
    ∧ countOcc (("A").toList) (parse_env (("A=1\nA=2\n").toList)).duplicates
      = (keyOccurrences (("A=1\nA=2\n").toList) (("A").toList)).length - 1
    ∧ countOcc (("A").toList)
        (sortedDedup (parse_env (("A=1\nA=2\n").toList)).duplicates) = 1
    ∧ (sortedDedup (parse_env (("A=1\nA=2\n").toList)).duplicates).Nodup
    ∧ (sortedDedup (parse_env (("A=1\nA=2\n").toList)).duplicates).Pairwise
        (fun a b => strLe a b = true) :=
  duplicate_key_semantics (("A=1\nA=2\n").toList) (("A").toList) (by decide)

/-- Witness for C4: an absent required key is reported missing. -/
theorem missing_required_semantics_witness :
    ("TOKEN").toList ∈ missingKeys (parse_env (("A=1").toList)).values
      [("TOKEN").toList] :=
  (missing_required_semantics.1 (("A=1").toList) [("TOKEN").toList]
    (("TOKEN").toList) (by decide)).mpr (Or.inl (by decide))

/-- Witness for C6 at the spec's example `telegram,bogus1,bogus2`. -/
theorem parse_channels_spec_witness :
    parse_channels (("telegram,bogus1,bogus2").toList) = Except.error
      (("Unsupported channels: ").toList ++ joinSep ((", ").toList)
        (invalidChannels (("telegram,bogus1,bogus2").toList))) :=
  ((parse_channels_spec.2.1 (("telegram,bogus1,bogus2").toList)).2.2.1) (by decide)

/-- Witness for C7 at provider `fly` with one `telegram` channel. -/
theorem channels_section_spec_witness :
    ∃ doc, renderLines (("fly").toList) [("telegram").toList]
        (("prod").toList) [] = some doc
      ∧ ([("telegram").toList] = ([] : List Str) →
          channelsSection doc = [noChannelsLine]
          ∧ ∀ l ∈ channelsSection doc, ¬(("Configure").toList <:+: l))
      ∧ ([("telegram").toList] ≠ ([] : List Str) →
          channelsSection doc = [("telegram").toList].flatMap (fun c =>
            [configureLine c ((dictLookup c CHANNEL_LINKS).getD []), smokeLine c])
          ∧ (channelsSection doc).length
            = 2 * ([("telegram").toList] : List Str).length) :=
  channels_section_spec (("fly").toList) [("telegram").toList] (("prod").toList) []
    (by decide) (by decide)

/-- Witness for C8 at the line `KEY = a=b`. -/
theorem split_on_first_equals_witness :
    lineStep ⟨[], [], []⟩ (1, ("KEY = a=b").toList) =
      { values := dictInsert (pyStrip (("KEY ").toList))
          (pyStrip ((" a=b").toList)) [],
        duplicates := [] ++ (if (dictLookup (pyStrip (("KEY ").toList))
            ([] : List (Str × Str))).isSome
          then [pyStrip (("KEY ").toList)] else []),
        malformed := [] } :=
  split_on_first_equals ⟨[], [], []⟩ 1 (("KEY = a=b").toList) (("KEY ").toList)
    ((" a=b").toList) (by decide) (by decide) (by decide)

/-- Witness for C9 at the file `A=1\nA=2`. -/
theorem duplicates_subset_mapping_witness :
    (dictLookup (("A").toList)
      (parse_env (("A=1\nA=2").toList)).values).isSome :=
  duplicates_subset_mapping (("A=1\nA=2").toList) (("A").toList) (by decide)

/-- Witness for C10 at provider `fly` and channel string `slack`. -/
theorem render_total_witness :
    (render (("fly").toList) [("slack").toList] (("prod").toList) []).isSome :=
  render_total (("fly").toList) (("slack").toList) [("slack").toList]
    (("prod").toList) [] (by decide) (by rfl)

example : parse_env (("A=1\nA=2\n").toList) =
    ⟨[(("A").toList, ("2").toList)], [("A").toList], []⟩ := by decide

example : (validateReport (("A=1\nA=2\n").toList) []).2 = 1 := by decide

example : (validateReport (("A=1\n# c\n\nB=x\n").toList) [("A").toList]).2 = 0 := by
  decide

example : parse_channels ((" Telegram , DISCORD ").toList) =
    Except.ok [("telegram").toList, ("discord").toList] := by rfl

example : parse_channels (("telegram,bogus1,bogus2").toList) =
    Except.error (("Unsupported channels: bogus1, bogus2").toList) := by rfl

example : channelBlock [] = some [noChannelsLine] := by decide

example : (renderLines (("fly").toList) [("slack").toList] (("prod").toList) []).isSome := by
  decide
